import Mathlib

/-
  Verification development for the ring renderer / presence model core of
  the-still-base.

  The TypeScript source is embedded shallowly over the real numbers:

  * `THREE.MathUtils.clamp` / `lerp` are `clamp` / `lerp` below.
  * The JS `%` operator (sign of the dividend) is `jsRem`.
  * `Math.pow` is `mathPow : ℝ → ℝ → Option ℝ`; `none` models the NaN that
    JS produces for a negative base with a non-integer exponent.  A NaN
    flowing through later arithmetic is modelled by `Option.map`, since
    every subsequent operation (`*`, the `> 1` cap, channel scaling)
    propagates NaN.
  * `PresenceSystem.computeStageValue` / `getClockPresenceLevels` and the
    `ClockSystem` / `RingPoints` operations are transcribed line by line
    from `src/src/systems/PresenceSystem.ts` and the presence-enabled
    `ClockSystem.ts` revision in `src/unnamed/part_004`.
-/

noncomputable section

namespace TheStill

open Classical

/-- Math.PI * 2, the full circle, written `tau` in `updateFill`. -/
def tau : ℝ := 2 * Real.pi

/-- THREE.MathUtils.clamp: Math.max(lo, Math.min(hi, value)). -/
def clamp (value lo hi : ℝ) : ℝ := max lo (min hi value)

/-- THREE.MathUtils.lerp: (1 - t) * x + t * y. -/
def lerp (x y t : ℝ) : ℝ := (1 - t) * x + t * y

/-- The JS remainder operator x % y for y > 0: the result has the sign of
the dividend x (truncated division). -/
def jsRem (x y : ℝ) : ℝ :=
  if 0 ≤ x then x - y * (⌊x / y⌋ : ℤ) else x + y * (⌊(-x) / y⌋ : ℤ)

/-- JS Math.pow on the idealized reals.  The result is `none` (NaN) exactly
when the base is negative and the exponent is not an integer; otherwise it
agrees with `Real.rpow` (for a negative base and an integer exponent, rpow
coincides with the usual integer power, which is what JS returns).  The
exponents reached in this codebase are the falloff powers in [1.2, 3.0]
and the easing powers 1 + easePower ≥ 1, so the `0 ^ (negative)` corner of
JS (Infinity) is never exercised. -/
def mathPow (x y : ℝ) : Option ℝ :=
  if 0 ≤ x ∨ ∃ n : ℤ, (n : ℝ) = y then some (x ^ y) else none

/- ----------------------------------------------------------------
   PresenceSystem (src/src/systems/PresenceSystem.ts)
   ---------------------------------------------------------------- -/

/-- The staged fade timeline configuration (PresenceGatesConfig). -/
structure PresenceGatesConfig where
  hourFadeSeconds : ℝ
  minuteFadeSeconds : ℝ
  secondFadeSeconds : ℝ
  easePower : ℝ

/-- The constructor defaults: 60 / 30 / 15 seconds, easePower 1. -/
def defaultGates : PresenceGatesConfig :=
  { hourFadeSeconds := 60, minuteFadeSeconds := 30, secondFadeSeconds := 15
    easePower := 1 }

/-- The result record of getClockPresenceLevels (ClockPresenceLevels). -/
structure ClockPresenceLevels where
  hour : ℝ
  minute : ℝ
  second : ℝ

/-- PresenceSystem.computeStageValue, transcribed from the source:
t = (progressedSeconds - stageStart) / stageDuration; 1 before the window,
0 after it, otherwise the eased linear fade clamped to [0,1]. -/
def computeStageValue (g : PresenceGatesConfig)
    (progressedSeconds stageStart stageDuration : ℝ) : ℝ :=
  let t := (progressedSeconds - stageStart) / stageDuration
  if t ≤ 0 then 1
  else if 1 ≤ t then 0
  else
    let linear := 1 - t
    let eased := if g.easePower ≤ 0 then linear else linear ^ (1 + g.easePower)
    clamp eased 0 1

/-- PresenceSystem.getClockPresenceLevels as a function of the gates
configuration and the stored presence level. -/
def getClockPresenceLevels (g : PresenceGatesConfig) (level : ℝ) :
    ClockPresenceLevels :=
  let p := clamp level 0 1
  let total := g.hourFadeSeconds + g.minuteFadeSeconds + g.secondFadeSeconds
  let progressed := (1 - p) * total
  { hour := computeStageValue g progressed 0 g.hourFadeSeconds
    minute := computeStageValue g progressed g.hourFadeSeconds g.minuteFadeSeconds
    second := computeStageValue g progressed
      (g.hourFadeSeconds + g.minuteFadeSeconds) g.secondFadeSeconds }

/-- PresenceSystem.setPresenceLevel: the stored level after the call. -/
def PresenceSystem.setPresenceLevel (level : ℝ) : ℝ := clamp level 0 1

/-- PresenceSystem.nudgePresence: setPresenceLevel(state.level + delta). -/
def PresenceSystem.nudgePresence (current delta : ℝ) : ℝ :=
  PresenceSystem.setPresenceLevel (current + delta)

/-- A Partial PresenceGatesConfig argument of setGatesConfig: absent fields
are `none`. -/
structure GatesPatch where
  hourFadeSeconds? : Option ℝ
  minuteFadeSeconds? : Option ℝ
  secondFadeSeconds? : Option ℝ
  easePower? : Option ℝ

/-- PresenceSystem.setGatesConfig: spread-merge the patch over the current
gates, then apply the safety clamps (durations floored at 0.001, easePower
floored at 0). -/
def setGatesConfig (g : PresenceGatesConfig) (p : GatesPatch) :
    PresenceGatesConfig :=
  let merged : PresenceGatesConfig :=
    { hourFadeSeconds := p.hourFadeSeconds?.getD g.hourFadeSeconds
      minuteFadeSeconds := p.minuteFadeSeconds?.getD g.minuteFadeSeconds
      secondFadeSeconds := p.secondFadeSeconds?.getD g.secondFadeSeconds
      easePower := p.easePower?.getD g.easePower }
  { hourFadeSeconds := max 0.001 merged.hourFadeSeconds
    minuteFadeSeconds := max 0.001 merged.minuteFadeSeconds
    secondFadeSeconds := max 0.001 merged.secondFadeSeconds
    easePower := max 0 merged.easePower }

/- ----------------------------------------------------------------
   ClockSystem knobs and presence state (src/unnamed/part_004,
   presence-enabled ClockSystem.ts revision, lines 900-1297)
   ---------------------------------------------------------------- -/

/-- ClockSystem.setGlobalIntensity: the stored globalIntensity. -/
def ClockSystem.setGlobalIntensity (value : ℝ) : ℝ := max 0 value

/-- ClockSystem.setDistanceFactor: the stored distanceFactor. -/
def ClockSystem.setDistanceFactor (value : ℝ) : ℝ := max 0 value

/-- ClockSystem.setAudioLevels: the stored (audioLow, audioMid, audioHigh). -/
def ClockSystem.setAudioLevels (low mid high : ℝ) : ℝ × ℝ × ℝ :=
  (clamp low 0 1, clamp mid 0 1, clamp high 0 1)

/-- The presence-related mutable fields of ClockSystem. -/
structure ClockPresenceState where
  presenceLevel : ℝ
  hourPresence : Option ℝ
  minutePresence : Option ℝ
  secondPresence : Option ℝ

/-- ClockSystem.clearRingPresenceOverrides. -/
def clearRingPresenceOverrides (s : ClockPresenceState) : ClockPresenceState :=
  { s with hourPresence := none, minutePresence := none, secondPresence := none }

/-- ClockSystem.setPresenceLevel: clamp the level and clear the per-ring
overrides. -/
def ClockSystem.setPresenceLevel (s : ClockPresenceState) (value : ℝ) :
    ClockPresenceState :=
  clearRingPresenceOverrides { s with presenceLevel := clamp value 0 1 }

/-- ClockSystem.setRingPresenceLevels. -/
def ClockSystem.setRingPresenceLevels (s : ClockPresenceState)
    (hour minute second : ℝ) : ClockPresenceState :=
  { s with hourPresence := some (clamp hour 0 1)
           minutePresence := some (clamp minute 0 1)
           secondPresence := some (clamp second 0 1) }

/-- The effective per-ring presences consumed by ClockSystem.update:
pHour = hourPresence ?? presenceLevel, and likewise per ring. -/
def updateEffectivePresences (s : ClockPresenceState) : ℝ × ℝ × ℝ :=
  (s.hourPresence.getD s.presenceLevel,
   s.minutePresence.getD s.presenceLevel,
   s.secondPresence.getD s.presenceLevel)

/-- The smooth hour progress computed by ClockSystem.update in the
presence-enabled revision:
((hours % 12) + minutes / 60 + seconds / 3600 + ms / 3600000) / 12. -/
def hourProgress (hours minutes seconds ms : ℕ) : ℝ :=
  (((hours % 12 : ℕ) : ℝ) + (minutes : ℝ) / 60 + (seconds : ℝ) / 3600
    + (ms : ℝ) / 3600000) / 12

/- ----------------------------------------------------------------
   RingPoints (same revision): geometry and updateFill
   ---------------------------------------------------------------- -/

/-- The epsilon boundary guard EPS = 1e-6 of updateFill. -/
def EPS : ℝ := 1e-6

/-- The fixed TAIL_FLOOR = 0.031 constant of updateFill. -/
def TAIL_FLOOR : ℝ := 0.031

/-- The one-sided cap at the end of the updateFill loop:
if (intensity > 1) intensity = 1. -/
def jsClampTop (x : ℝ) : ℝ := if 1 < x then 1 else x

/-- Head-angle normalization at the top of updateFill:
let head = headAngle % tau; if (head < 0) head += tau. -/
def normalizeAngle (x : ℝ) : ℝ :=
  let r := jsRem x tau
  if r < 0 then r + tau else r

/-- The per-point body of the updateFill loop, generalized over the values
it consumes: the normalized head angle, the point angle, the tail arc, the
tail floor, the falloff power and the (already non-negative) intensity
scale.  deltaBack = (head - angle + tau) % tau; inside the lit arc the
shaped intensity is floor + (1 - floor) * t ^ power, outside it is 0; the
result is multiplied by the scale and capped at 1.  `none` is the NaN that
Math.pow produces for a negative t (and that then propagates). -/
def ringKernel (head angle tailArc floorValue power scale : ℝ) : Option ℝ :=
  let deltaBack := jsRem (head - angle + tau) tau
  let target : Option ℝ :=
    if 0 ≤ deltaBack ∧ deltaBack ≤ tailArc + EPS then
      (mathPow (1 - deltaBack / tailArc) power).map fun shaped =>
        floorValue + (1 - floorValue) * shaped
    else some 0
  target.map fun intensity => jsClampTop (intensity * scale)

/-- The RingPoints construction parameters that matter for updateFill. -/
structure RingPointsConfig where
  points : ℕ
  falloffFactor : ℝ
  minTailLength : ℝ
  maxTailLength : ℝ
  baseColor : ℝ × ℝ × ℝ

/-- this.falloffPower = lerp(1.2, 3.0, clamp(falloffFactor, 0, 1)). -/
def falloffPower (c : RingPointsConfig) : ℝ :=
  lerp 1.2 3.0 (clamp c.falloffFactor 0 1)

/-- this.minTailLengthFraction = clamp(minTailLength, 0, 1). -/
def minTailLengthFraction (c : RingPointsConfig) : ℝ :=
  clamp c.minTailLength 0 1

/-- this.maxTailLengthFraction = clamp(maxTailLength, 0, 1). -/
def maxTailLengthFraction (c : RingPointsConfig) : ℝ :=
  clamp c.maxTailLength 0 1

/-- The constructor point angles: angles[i] = (i / points) * tau. -/
def ringAngles (n : ℕ) : List ℝ :=
  (List.range n).map fun i => ((i : ℕ) : ℝ) / (n : ℝ) * tau

/-- The tail arc computed by updateFill from the clamped presence:
lerp(max(minFrac * tau, 1e-4), max(maxFrac * tau, 1e-4), presence). -/
def tailArcOf (c : RingPointsConfig) (presence : ℝ) : ℝ :=
  let minArc := max (minTailLengthFraction c * tau) 1e-4
  let maxArc := max (maxTailLengthFraction c * tau) 1e-4
  lerp minArc maxArc presence

/-- RingPoints.updateFill restricted to one point: the intensity written
for the point at `angle`. -/
def updateFillPoint (c : RingPointsConfig)
    (headAngle intensityScale presenceLevel angle : ℝ) : Option ℝ :=
  let head := normalizeAngle headAngle
  let presence := clamp presenceLevel 0 1
  let scale := max 0 intensityScale
  ringKernel head angle (tailArcOf c presence) TAIL_FLOOR (falloffPower c) scale

/-- The color triple written for one point: each channel is the base color
channel times the point intensity (NaN propagates into every channel). -/
def updateFillChannels (c : RingPointsConfig)
    (headAngle intensityScale presenceLevel angle : ℝ) : Option (ℝ × ℝ × ℝ) :=
  (updateFillPoint c headAngle intensityScale presenceLevel angle).map
    fun intensity =>
      (c.baseColor.1 * intensity, c.baseColor.2.1 * intensity,
       c.baseColor.2.2 * intensity)

/-- The hour ring of ClockSystem: 12 points, falloffFactor 0.35, the
default minTailLength 0.031 and maxTailLength 0.97, base color 0xd4af37
(whose 8-bit channels are 212, 175, 55). -/
def hourRingConfig : RingPointsConfig :=
  { points := 12, falloffFactor := 0.35, minTailLength := 0.031
    maxTailLength := 0.97, baseColor := (212 / 255, 175 / 255, 55 / 255) }

/-- Channel scaling applied to a paint intensity (the three writes
colors[idx] = baseR * intensity and so on), used to state the per-point
contract over an arbitrary base color. -/
def paintChannels (base : ℝ × ℝ × ℝ) (o : Option ℝ) : Option (ℝ × ℝ × ℝ) :=
  o.map fun v => (base.1 * v, base.2.1 * v, base.2.2 * v)

/- ----------------------------------------------------------------
   Spec-side definitions (from the specification text, for the
   refinement-style claims)
   ---------------------------------------------------------------- -/

/-- Stage value exactly as the specification words it: local progress
t = (progressed - stageStart) / duration; 1 if t ≤ 0, 0 if t ≥ 1, and
otherwise (1 - t) ^ (1 + easePower) clamped to [0,1]. -/
def specStageValue (easePower progressed stageStart duration : ℝ) : ℝ :=
  let t := (progressed - stageStart) / duration
  if t ≤ 0 then 1
  else if 1 ≤ t then 0
  else clamp ((1 - t) ^ (1 + easePower)) 0 1

/- ----------------------------------------------------------------
   Basic lemmas about the JS math model
   ---------------------------------------------------------------- -/

theorem tau_pos : 0 < tau := by
  unfold tau
  positivity

theorem clamp_eq_of_mem {x lo hi : ℝ} (h1 : lo ≤ x) (h2 : x ≤ hi) :
    clamp x lo hi = x := by
  unfold clamp
  rw [min_eq_right h2, max_eq_right h1]

theorem clamp_mono {a b : ℝ} (lo hi : ℝ) (h : a ≤ b) :
    clamp a lo hi ≤ clamp b lo hi :=
  max_le_max le_rfl (min_le_min le_rfl h)

theorem clamp_le_hi {x lo hi : ℝ} (h : lo ≤ hi) : clamp x lo hi ≤ hi :=
  max_le h (min_le_left _ _)

theorem lo_le_clamp (x lo hi : ℝ) : lo ≤ clamp x lo hi :=
  le_max_left _ _

theorem jsRem_of_nonneg {x y : ℝ} (hx : 0 ≤ x) (hy : 0 < y) :
    jsRem x y = y * Int.fract (x / y) := by
  unfold jsRem
  rw [if_pos hx]
  have hf : Int.fract (x / y) = x / y - (⌊x / y⌋ : ℤ) := rfl
  rw [hf, mul_sub, mul_comm y (x / y), div_mul_cancel₀ x hy.ne']

theorem jsRem_nonneg {x y : ℝ} (hx : 0 ≤ x) (hy : 0 < y) : 0 ≤ jsRem x y := by
  rw [jsRem_of_nonneg hx hy]
  exact mul_nonneg hy.le (Int.fract_nonneg _)

theorem jsRem_eq_self {x y : ℝ} (hx : 0 ≤ x) (hxy : x < y) (hy : 0 < y) :
    jsRem x y = x := by
  rw [jsRem_of_nonneg hx hy,
    Int.fract_eq_self.mpr ⟨div_nonneg hx hy.le, (div_lt_one hy).mpr hxy⟩,
    mul_comm, div_mul_cancel₀ x hy.ne']

theorem jsRem_eq_sub {x y : ℝ} (hx : y ≤ x) (hxy : x < 2 * y) (hy : 0 < y) :
    jsRem x y = x - y := by
  have h0 : 0 ≤ x := le_trans hy.le hx
  rw [jsRem_of_nonneg h0 hy]
  have h1 : x / y = (x - y) / y + (1 : ℤ) := by
    push_cast
    field_simp
  rw [h1, Int.fract_add_int,
    Int.fract_eq_self.mpr ⟨div_nonneg (by linarith) hy.le,
      (div_lt_one hy).mpr (by linarith)⟩,
    mul_comm, div_mul_cancel₀ _ hy.ne']

theorem normalizeAngle_eq (x : ℝ) :
    normalizeAngle x = tau * Int.fract (x / tau) := by
  unfold normalizeAngle
  by_cases hx : 0 ≤ x
  · rw [jsRem_of_nonneg hx tau_pos,
      if_neg (not_lt.mpr (mul_nonneg tau_pos.le (Int.fract_nonneg _)))]
  · push_neg at hx
    have hrem : jsRem x tau = -(tau * Int.fract (-(x / tau))) := by
      unfold jsRem
      rw [if_neg (not_le.mpr hx), neg_div]
      have hf : Int.fract (-(x / tau)) = -(x / tau) - (⌊-(x / tau)⌋ : ℤ) := rfl
      rw [hf]
      have hxt : tau * (x / tau) = x := by
        rw [mul_comm, div_mul_cancel₀ x tau_pos.ne']
      linear_combination -hxt
    by_cases hz : Int.fract (x / tau) = 0
    · rw [hrem, Int.fract_neg_eq_zero.mpr hz, hz]
      norm_num
    · rw [hrem, Int.fract_neg hz]
      have h1 : Int.fract (x / tau) < 1 := Int.fract_lt_one _
      have h2 : 0 < 1 - Int.fract (x / tau) := by linarith
      rw [if_pos (by nlinarith [tau_pos])]
      ring

theorem normalizeAngle_nonneg (x : ℝ) : 0 ≤ normalizeAngle x := by
  rw [normalizeAngle_eq]
  exact mul_nonneg tau_pos.le (Int.fract_nonneg _)

theorem normalizeAngle_lt_tau (x : ℝ) : normalizeAngle x < tau := by
  rw [normalizeAngle_eq]
  nlinarith [Int.fract_lt_one (x / tau), tau_pos]

/-- The two-step normalization of the source (normalize the head, then take
(head - angle + tau) % tau) computes exactly the backward angular distance
of the specification: (h - a) normalized into [0, 2π). -/
theorem deltaBack_eq (h a : ℝ) (ha1 : a < tau) :
    jsRem (normalizeAngle h - a + tau) tau = tau * Int.fract ((h - a) / tau) := by
  have hn0 : 0 ≤ normalizeAngle h := normalizeAngle_nonneg h
  have harg : 0 ≤ normalizeAngle h - a + tau := by linarith
  have ht : tau ≠ 0 := tau_pos.ne'
  rw [jsRem_of_nonneg harg tau_pos, normalizeAngle_eq]
  congr 1
  rw [Int.fract_eq_fract]
  refine ⟨1 - ⌊h / tau⌋, ?_⟩
  have hf : Int.fract (h / tau) = h / tau - (⌊h / tau⌋ : ℤ) := rfl
  rw [hf]
  push_cast
  field_simp
  ring

theorem mathPow_of_nonneg {x : ℝ} (hx : 0 ≤ x) (y : ℝ) :
    mathPow x y = some (x ^ y) := by
  unfold mathPow
  rw [if_pos (Or.inl hx)]

theorem mathPow_of_neg_notInt {x y : ℝ} (hx : x < 0)
    (hy : ∀ n : ℤ, (n : ℝ) ≠ y) : mathPow x y = none := by
  unfold mathPow
  rw [if_neg]
  rintro (h | ⟨n, hn⟩)
  · exact absurd h (not_le.mpr hx)
  · exact hy n hn

/-- The exponent 1.83 = lerp(1.2, 3.0, 0.35) used by all three rings is not
an integer, so Math.pow of a negative base with it is NaN. -/
theorem notInt_183 : ∀ n : ℤ, (n : ℝ) ≠ 183 / 100 := by
  intro n hn
  have h1 : ((100 * n : ℤ) : ℝ) = ((183 : ℤ) : ℝ) := by
    push_cast
    linarith
  have h2 : (100 * n : ℤ) = 183 := Int.cast_injective h1
  omega

theorem jsClampTop_nonneg {x : ℝ} (hx : 0 ≤ x) : 0 ≤ jsClampTop x := by
  unfold jsClampTop
  split_ifs <;> linarith

theorem jsClampTop_mono {a b : ℝ} (h : a ≤ b) : jsClampTop a ≤ jsClampTop b := by
  unfold jsClampTop
  split_ifs <;> linarith

theorem jsClampTop_eq_clamp {x : ℝ} (hx : 0 ≤ x) : jsClampTop x = clamp x 0 1 := by
  unfold jsClampTop clamp
  rcases le_or_lt x 1 with h | h
  · rw [if_neg (not_lt.mpr h), min_eq_right h, max_eq_right hx]
  · rw [if_pos h, min_eq_left h.le]
    norm_num

/-- Unfolding of the let bindings of ringKernel. -/
theorem ringKernel_def (head angle tailArc floorValue power scale : ℝ) :
    ringKernel head angle tailArc floorValue power scale =
      (if 0 ≤ jsRem (head - angle + tau) tau
          ∧ jsRem (head - angle + tau) tau ≤ tailArc + EPS then
        (mathPow (1 - jsRem (head - angle + tau) tau / tailArc) power).map
          fun shaped => floorValue + (1 - floorValue) * shaped
      else some 0).map fun intensity => jsClampTop (intensity * scale) := rfl

/-- Normalization is the identity on angles already in [0, tau). -/
theorem normalizeAngle_of_mem {x : ℝ} (h0 : 0 ≤ x) (h1 : x < tau) :
    normalizeAngle x = x := by
  unfold normalizeAngle
  rw [jsRem_eq_self h0 h1 tau_pos, if_neg (not_lt.mpr h0)]

/-- Unfolding of the let bindings of updateFillPoint. -/
theorem updateFillPoint_def (c : RingPointsConfig)
    (headAngle intensityScale presenceLevel angle : ℝ) :
    updateFillPoint c headAngle intensityScale presenceLevel angle =
      ringKernel (normalizeAngle headAngle) angle
        (tailArcOf c (clamp presenceLevel 0 1)) TAIL_FLOOR (falloffPower c)
        (max 0 intensityScale) := rfl

/-- Unfolding of the let bindings of tailArcOf. -/
theorem tailArcOf_def (c : RingPointsConfig) (presence : ℝ) :
    tailArcOf c presence =
      lerp (max (minTailLengthFraction c * tau) 1e-4)
        (max (maxTailLengthFraction c * tau) 1e-4) presence := rfl

/-- Out of the lit arc (deltaBack beyond tailArc + EPS), updateFill leaves
the intensity at 0 (and 0 survives the scaling and the cap). -/
theorem ringKernel_out (f p s : ℝ) {head angle tailArc : ℝ}
    (hgt : tailArc + EPS < jsRem (head - angle + tau) tau) :
    ringKernel head angle tailArc f p s = some 0 := by
  rw [ringKernel_def]
  rw [if_neg (by
    rintro ⟨-, hle⟩
    exact absurd hgt (not_lt.mpr hle))]
  show some (jsClampTop (0 * s)) = some 0
  unfold jsClampTop
  rw [zero_mul, if_neg (by norm_num)]

/-- Inside the lit arc (deltaBack ≤ tailArc), updateFill computes the
shaped, floored, scaled and capped intensity. -/
theorem ringKernel_in (f p s : ℝ) {head angle tailArc : ℝ} (hA : 0 < tailArc)
    (hd0 : 0 ≤ jsRem (head - angle + tau) tau)
    (hdA : jsRem (head - angle + tau) tau ≤ tailArc) :
    ringKernel head angle tailArc f p s =
      some (jsClampTop
        ((f + (1 - f) * (1 - jsRem (head - angle + tau) tau / tailArc) ^ p) * s)) := by
  rw [ringKernel_def]
  rw [if_pos ⟨hd0, le_trans hdA (by unfold EPS; norm_num)⟩,
    mathPow_of_nonneg (by
      have := (div_le_one hA).mpr hdA
      linarith)]
  rfl

/- ----------------------------------------------------------------
   Presence stage lemmas
   ---------------------------------------------------------------- -/

/-- Unfolding of the let bindings of computeStageValue. -/
theorem computeStageValue_def (g : PresenceGatesConfig) (prog st d : ℝ) :
    computeStageValue g prog st d =
      if (prog - st) / d ≤ 0 then 1
      else if 1 ≤ (prog - st) / d then 0
      else clamp (if g.easePower ≤ 0 then 1 - (prog - st) / d
        else (1 - (prog - st) / d) ^ (1 + g.easePower)) 0 1 := rfl

/-- Unfolding of the let bindings of specStageValue. -/
theorem specStageValue_def (e prog st d : ℝ) :
    specStageValue e prog st d =
      if (prog - st) / d ≤ 0 then 1
      else if 1 ≤ (prog - st) / d then 0
      else clamp ((1 - (prog - st) / d) ^ (1 + e)) 0 1 := rfl

/-- Unfolding of the let bindings of getClockPresenceLevels. -/
theorem getClockPresenceLevels_def (g : PresenceGatesConfig) (level : ℝ) :
    getClockPresenceLevels g level =
      { hour := computeStageValue g
          ((1 - clamp level 0 1) *
            (g.hourFadeSeconds + g.minuteFadeSeconds + g.secondFadeSeconds))
          0 g.hourFadeSeconds
        minute := computeStageValue g
          ((1 - clamp level 0 1) *
            (g.hourFadeSeconds + g.minuteFadeSeconds + g.secondFadeSeconds))
          g.hourFadeSeconds g.minuteFadeSeconds
        second := computeStageValue g
          ((1 - clamp level 0 1) *
            (g.hourFadeSeconds + g.minuteFadeSeconds + g.secondFadeSeconds))
          (g.hourFadeSeconds + g.minuteFadeSeconds) g.secondFadeSeconds } := rfl

/-- For easePower ≥ 0, the code stage value is exactly the stage value the
specification words (the easePower ≤ 0 fast path returns the linear fade,
which coincides with (1 - t) ^ (1 + 0)). -/
theorem computeStageValue_eq_spec (g : PresenceGatesConfig) (prog st d : ℝ)
    (he : 0 ≤ g.easePower) :
    computeStageValue g prog st d = specStageValue g.easePower prog st d := by
  rw [computeStageValue_def, specStageValue_def]
  by_cases h1 : (prog - st) / d ≤ 0
  · rw [if_pos h1, if_pos h1]
  · rw [if_neg h1, if_neg h1]
    by_cases h2 : 1 ≤ (prog - st) / d
    · rw [if_pos h2, if_pos h2]
    · rw [if_neg h2, if_neg h2]
      by_cases h3 : g.easePower ≤ 0
      · have he0 : g.easePower = 0 := le_antisymm h3 he
        rw [if_pos h3, he0]
        norm_num [Real.rpow_one]
      · rw [if_neg h3]

theorem computeStageValue_le_one (g : PresenceGatesConfig) (prog st d : ℝ) :
    computeStageValue g prog st d ≤ 1 := by
  rw [computeStageValue_def]
  split_ifs <;>
    first
      | exact le_rfl
      | exact zero_le_one
      | exact clamp_le_hi zero_le_one

theorem computeStageValue_nonneg (g : PresenceGatesConfig) (prog st d : ℝ) :
    0 ≤ computeStageValue g prog st d := by
  rw [computeStageValue_def]
  split_ifs <;>
    first
      | exact zero_le_one
      | exact le_rfl
      | exact lo_le_clamp _ _ _

/-- The stage value never increases as the progressed time grows. -/
theorem computeStageValue_anti (g : PresenceGatesConfig) (st d : ℝ)
    (hd : 0 < d) {q1 q2 : ℝ} (h : q1 ≤ q2) :
    computeStageValue g q2 st d ≤ computeStageValue g q1 st d := by
  have ht : (q1 - st) / d ≤ (q2 - st) / d :=
    (div_le_div_right hd).mpr (by linarith)
  rw [computeStageValue_def g q2 st d, computeStageValue_def g q1 st d]
  by_cases h2 : (q2 - st) / d ≤ 0
  · rw [if_pos h2, if_pos (le_trans ht h2)]
  · rw [if_neg h2]
    by_cases h1 : (q1 - st) / d ≤ 0
    · rw [if_pos h1]
      split_ifs <;>
        first
          | exact zero_le_one
          | exact clamp_le_hi zero_le_one
    · rw [if_neg h1]
      by_cases h1b : 1 ≤ (q1 - st) / d
      · rw [if_pos h1b, if_pos (le_trans h1b ht)]
      · rw [if_neg h1b]
        by_cases h2b : 1 ≤ (q2 - st) / d
        · rw [if_pos h2b]
          exact lo_le_clamp _ _ _
        · rw [if_neg h2b]
          apply clamp_mono
          by_cases he : g.easePower ≤ 0
          · rw [if_pos he, if_pos he]
            linarith
          · rw [if_neg he, if_neg he]
            push_neg at he
            exact Real.rpow_le_rpow (by linarith) (by linarith) (by linarith)

/- ----------------------------------------------------------------
   Claim theorems
   ---------------------------------------------------------------- -/

/-- C2: for every presence level p in [0,1] (and the maintained gates
invariant easePower ≥ 0), getClockPresenceLevels returns the three stage
values of the specification: progressed = (1 - p) * (hour + minute +
second fade seconds), and each stage with its start offset and duration is
1 for t ≤ 0, 0 for t ≥ 1, and otherwise (1 - t) ^ (1 + easePower) clamped
to [0,1]. -/
theorem C2_getClockPresenceLevels_formula (g : PresenceGatesConfig) (p : ℝ)
    (hp0 : 0 ≤ p) (hp1 : p ≤ 1) (he : 0 ≤ g.easePower) :
    getClockPresenceLevels g p =
      { hour := specStageValue g.easePower
          ((1 - p) * (g.hourFadeSeconds + g.minuteFadeSeconds + g.secondFadeSeconds))
          0 g.hourFadeSeconds
        minute := specStageValue g.easePower
          ((1 - p) * (g.hourFadeSeconds + g.minuteFadeSeconds + g.secondFadeSeconds))
          g.hourFadeSeconds g.minuteFadeSeconds
        second := specStageValue g.easePower
          ((1 - p) * (g.hourFadeSeconds + g.minuteFadeSeconds + g.secondFadeSeconds))
          (g.hourFadeSeconds + g.minuteFadeSeconds) g.secondFadeSeconds } := by
  rw [getClockPresenceLevels_def, clamp_eq_of_mem hp0 hp1]
  congr 1 <;> exact computeStageValue_eq_spec g _ _ _ he

/-- Witness for C2 at the default gates and p = 1/2. -/
theorem C2_witness :
    getClockPresenceLevels defaultGates (1 / 2) =
      { hour := specStageValue defaultGates.easePower
          ((1 - 1 / 2) * (defaultGates.hourFadeSeconds + defaultGates.minuteFadeSeconds
            + defaultGates.secondFadeSeconds)) 0 defaultGates.hourFadeSeconds
        minute := specStageValue defaultGates.easePower
          ((1 - 1 / 2) * (defaultGates.hourFadeSeconds + defaultGates.minuteFadeSeconds
            + defaultGates.secondFadeSeconds)) defaultGates.hourFadeSeconds
          defaultGates.minuteFadeSeconds
        second := specStageValue defaultGates.easePower
          ((1 - 1 / 2) * (defaultGates.hourFadeSeconds + defaultGates.minuteFadeSeconds
            + defaultGates.secondFadeSeconds))
          (defaultGates.hourFadeSeconds + defaultGates.minuteFadeSeconds)
          defaultGates.secondFadeSeconds } :=
  C2_getClockPresenceLevels_formula defaultGates (1 / 2) (by norm_num)
    (by norm_num) (by norm_num [defaultGates])

/-- C4: for every gates configuration (with its positive durations) and
every pair of presence levels p1 < p2, each of the three stage values at
p1 is at most the corresponding stage value at p2. -/
theorem C4_stage_values_monotone (g : PresenceGatesConfig) (p1 p2 : ℝ)
    (hh : 0 < g.hourFadeSeconds) (hm : 0 < g.minuteFadeSeconds)
    (hs : 0 < g.secondFadeSeconds) (h12 : p1 < p2) :
    (getClockPresenceLevels g p1).hour ≤ (getClockPresenceLevels g p2).hour
  ∧ (getClockPresenceLevels g p1).minute ≤ (getClockPresenceLevels g p2).minute
  ∧ (getClockPresenceLevels g p1).second ≤ (getClockPresenceLevels g p2).second := by
  have hc : clamp p1 0 1 ≤ clamp p2 0 1 := clamp_mono 0 1 h12.le
  have hT : (0 : ℝ) ≤ g.hourFadeSeconds + g.minuteFadeSeconds + g.secondFadeSeconds := by
    linarith
  have hprog :
      (1 - clamp p2 0 1) *
          (g.hourFadeSeconds + g.minuteFadeSeconds + g.secondFadeSeconds)
        ≤ (1 - clamp p1 0 1) *
          (g.hourFadeSeconds + g.minuteFadeSeconds + g.secondFadeSeconds) :=
    mul_le_mul_of_nonneg_right (by linarith) hT
  simp only [getClockPresenceLevels_def]
  exact ⟨computeStageValue_anti g _ _ hh hprog,
    computeStageValue_anti g _ _ hm hprog,
    computeStageValue_anti g _ _ hs hprog⟩

/-- Witness for C4 at the default gates, p1 = 0, p2 = 1. -/
theorem C4_witness :
    (getClockPresenceLevels defaultGates 0).hour
        ≤ (getClockPresenceLevels defaultGates 1).hour
  ∧ (getClockPresenceLevels defaultGates 0).minute
        ≤ (getClockPresenceLevels defaultGates 1).minute
  ∧ (getClockPresenceLevels defaultGates 0).second
        ≤ (getClockPresenceLevels defaultGates 1).second :=
  C4_stage_values_monotone defaultGates 0 1 (by norm_num [defaultGates])
    (by norm_num [defaultGates]) (by norm_num [defaultGates]) (by norm_num)

/-- C5: whenever progressed = (1 - p) * total lies in
[hourFadeSeconds, hourFadeSeconds + minuteFadeSeconds), the derived hour
value is 0 and the derived second value is 1. -/
theorem C5_sequential_ordering (g : PresenceGatesConfig) (p : ℝ)
    (hp0 : 0 ≤ p) (hp1 : p ≤ 1)
    (hh : 0 < g.hourFadeSeconds) (hs : 0 < g.secondFadeSeconds)
    (hlo : g.hourFadeSeconds
      ≤ (1 - p) * (g.hourFadeSeconds + g.minuteFadeSeconds + g.secondFadeSeconds))
    (hhi : (1 - p) * (g.hourFadeSeconds + g.minuteFadeSeconds + g.secondFadeSeconds)
      < g.hourFadeSeconds + g.minuteFadeSeconds) :
    (getClockPresenceLevels g p).hour = 0
  ∧ (getClockPresenceLevels g p).second = 1 := by
  simp only [getClockPresenceLevels_def, clamp_eq_of_mem hp0 hp1]
  constructor
  · rw [computeStageValue_def]
    have ht1 : 1 ≤ ((1 - p) * (g.hourFadeSeconds + g.minuteFadeSeconds
        + g.secondFadeSeconds) - 0) / g.hourFadeSeconds :=
      (le_div_iff hh).mpr (by linarith)
    rw [if_neg (not_le.mpr (lt_of_lt_of_le zero_lt_one ht1)), if_pos ht1]
  · rw [computeStageValue_def]
    have ht0 : ((1 - p) * (g.hourFadeSeconds + g.minuteFadeSeconds
        + g.secondFadeSeconds) - (g.hourFadeSeconds + g.minuteFadeSeconds))
          / g.secondFadeSeconds ≤ 0 :=
      (div_le_iff hs).mpr (by linarith)
    rw [if_pos ht0]

/-- Witness for C5: gates 10/10/10 with easePower 0 and p = 1/2, so
progressed = 15 lies in the minute window [10, 20). -/
theorem C5_witness :
    (getClockPresenceLevels ⟨10, 10, 10, 0⟩ (1 / 2)).hour = 0
  ∧ (getClockPresenceLevels ⟨10, 10, 10, 0⟩ (1 / 2)).second = 1 :=
  C5_sequential_ordering ⟨10, 10, 10, 0⟩ (1 / 2) (by norm_num) (by norm_num)
    (by norm_num) (by norm_num) (by norm_num) (by norm_num)

/-- C6: for every gates configuration with positive durations,
getClockPresenceLevels is exactly {1,1,1} at presence 1 and exactly
{0,0,0} at presence 0. -/
theorem C6_full_and_empty (g : PresenceGatesConfig)
    (hh : 0 < g.hourFadeSeconds) (hm : 0 < g.minuteFadeSeconds)
    (hs : 0 < g.secondFadeSeconds) :
    getClockPresenceLevels g 1 = { hour := 1, minute := 1, second := 1 }
  ∧ getClockPresenceLevels g 0 = { hour := 0, minute := 0, second := 0 } := by
  constructor
  · rw [getClockPresenceLevels_def, clamp_eq_of_mem zero_le_one le_rfl]
    congr 1
    · rw [computeStageValue_def]
      rw [if_pos ((div_le_iff hh).mpr (by linarith))]
    · rw [computeStageValue_def]
      rw [if_pos ((div_le_iff hm).mpr (by linarith))]
    · rw [computeStageValue_def]
      rw [if_pos ((div_le_iff hs).mpr (by linarith))]
  · rw [getClockPresenceLevels_def, clamp_eq_of_mem le_rfl zero_le_one]
    congr 1
    · rw [computeStageValue_def]
      have ht1 : 1 ≤ ((1 - 0) * (g.hourFadeSeconds + g.minuteFadeSeconds
          + g.secondFadeSeconds) - 0) / g.hourFadeSeconds :=
        (le_div_iff hh).mpr (by linarith)
      rw [if_neg (not_le.mpr (lt_of_lt_of_le zero_lt_one ht1)), if_pos ht1]
    · rw [computeStageValue_def]
      have ht1 : 1 ≤ ((1 - 0) * (g.hourFadeSeconds + g.minuteFadeSeconds
          + g.secondFadeSeconds) - g.hourFadeSeconds) / g.minuteFadeSeconds :=
        (le_div_iff hm).mpr (by linarith)
      rw [if_neg (not_le.mpr (lt_of_lt_of_le zero_lt_one ht1)), if_pos ht1]
    · rw [computeStageValue_def]
      have ht1 : 1 ≤ ((1 - 0) * (g.hourFadeSeconds + g.minuteFadeSeconds
          + g.secondFadeSeconds) - (g.hourFadeSeconds + g.minuteFadeSeconds))
            / g.secondFadeSeconds :=
        (le_div_iff hs).mpr (by linarith)
      rw [if_neg (not_le.mpr (lt_of_lt_of_le zero_lt_one ht1)), if_pos ht1]

/-- Witness for C6 at the default gates. -/
theorem C6_witness :
    getClockPresenceLevels defaultGates 1 = { hour := 1, minute := 1, second := 1 }
  ∧ getClockPresenceLevels defaultGates 0 = { hour := 0, minute := 0, second := 0 } :=
  C6_full_and_empty defaultGates (by norm_num [defaultGates])
    (by norm_num [defaultGates]) (by norm_num [defaultGates])

/-- C7: the coarse ring progress of the controller update equals
(hourOfHalfDay + minutes/60 + (seconds + ms/1000)/3600) / 12; it is the
elapsed milliseconds into the current 12-hour cycle divided by 43200000
(hence smooth in the minutes and seconds), and stepping one millisecond
across an hour boundary changes it by exactly 1/43200000 (no
discontinuity). -/
theorem C7_hour_progress_smooth (hours minutes seconds ms : ℕ) :
    (hourProgress hours minutes seconds ms
        = (((hours % 12 : ℕ) : ℝ) + (minutes : ℝ) / 60
            + ((seconds : ℝ) + (ms : ℝ) / 1000) / 3600) / 12
      ∧ hourProgress hours minutes seconds ms
        = (((hours % 12) * 3600000 + minutes * 60000 + seconds * 1000 + ms : ℕ) : ℝ)
            / 43200000)
  ∧ (hours % 12 < 11 →
      hourProgress (hours + 1) 0 0 0 - hourProgress hours 59 59 999
        = 1 / 43200000) := by
  refine ⟨⟨?_, ?_⟩, ?_⟩
  · unfold hourProgress
    ring
  · unfold hourProgress
    push_cast
    ring
  · intro hlt
    have hmod : (hours + 1) % 12 = hours % 12 + 1 := by omega
    unfold hourProgress
    rw [hmod]
    push_cast
    ring

/-- Witness for C7 at 3:59:59.999 against 4:00:00.000. -/
theorem C7_witness :
    (hourProgress 3 4 5 6
        = (((3 % 12 : ℕ) : ℝ) + (4 : ℝ) / 60 + ((5 : ℝ) + (6 : ℝ) / 1000) / 3600) / 12
      ∧ hourProgress 3 4 5 6
        = (((3 % 12) * 3600000 + 4 * 60000 + 5 * 1000 + 6 : ℕ) : ℝ) / 43200000)
  ∧ hourProgress (3 + 1) 0 0 0 - hourProgress 3 59 59 999 = 1 / 43200000 :=
  ⟨(C7_hour_progress_smooth 3 4 5 6).1,
    (C7_hour_progress_smooth 3 59 59 999).2 (by norm_num)⟩

/-- C1 as amended: for every paint call (head angle h any real, normalized
internally; tail arc A > 0; tail floor f in [0,1); scale s ≥ 0) and every
point at angle a in [0, 2π), with deltaBack = (h - a) normalized into
[0, 2π): when deltaBack ≤ A the target intensity is
f + (1 - f) * (1 - deltaBack / A) ^ falloffShapePower, it is multiplied by
s and clamped to [0,1], and every channel is the base color channel times
that intensity; when deltaBack exceeds A + EPS the intensity and all
channels are 0.  (The original claim extended the formula branch over the
epsilon guard band A < deltaBack ≤ A + EPS as well; there the code feeds
the negative base 1 - deltaBack / A to Math.pow with a non-integer
exponent and produces NaN instead of the formula value, see the
counterexample.) -/
theorem C1_paint_point_amended (h a A f p s : ℝ) (b : ℝ × ℝ × ℝ)
    (ha1 : a < tau) (hA : 0 < A) (hf0 : 0 ≤ f) (hf1 : f < 1) (hs : 0 ≤ s) :
    (tau * Int.fract ((h - a) / tau) ≤ A →
      ringKernel (normalizeAngle h) a A f p s
          = some (clamp
              ((f + (1 - f) * (1 - tau * Int.fract ((h - a) / tau) / A) ^ p) * s) 0 1)
        ∧ paintChannels b (ringKernel (normalizeAngle h) a A f p s)
          = some
              (b.1 * clamp
                ((f + (1 - f) * (1 - tau * Int.fract ((h - a) / tau) / A) ^ p) * s) 0 1,
               b.2.1 * clamp
                ((f + (1 - f) * (1 - tau * Int.fract ((h - a) / tau) / A) ^ p) * s) 0 1,
               b.2.2 * clamp
                ((f + (1 - f) * (1 - tau * Int.fract ((h - a) / tau) / A) ^ p) * s) 0 1))
  ∧ (A + EPS < tau * Int.fract ((h - a) / tau) →
      ringKernel (normalizeAngle h) a A f p s = some 0
        ∧ paintChannels b (ringKernel (normalizeAngle h) a A f p s)
          = some (0, 0, 0)) := by
  have hd : jsRem (normalizeAngle h - a + tau) tau = tau * Int.fract ((h - a) / tau) :=
    deltaBack_eq h a ha1
  constructor
  · intro hle
    have hd0 : 0 ≤ jsRem (normalizeAngle h - a + tau) tau := by
      rw [hd]
      exact mul_nonneg tau_pos.le (Int.fract_nonneg _)
    have hker := ringKernel_in f p s hA hd0 (by rw [hd]; exact hle)
    rw [hd] at hker
    have htn : 0 ≤ 1 - tau * Int.fract ((h - a) / tau) / A := by
      have hq : tau * Int.fract ((h - a) / tau) / A ≤ 1 := (div_le_one hA).mpr hle
      linarith
    have htarget : 0 ≤ f + (1 - f) * (1 - tau * Int.fract ((h - a) / tau) / A) ^ p := by
      have h1 : 0 ≤ (1 - tau * Int.fract ((h - a) / tau) / A) ^ p :=
        Real.rpow_nonneg htn p
      nlinarith
    have hmain : ringKernel (normalizeAngle h) a A f p s
        = some (clamp
            ((f + (1 - f) * (1 - tau * Int.fract ((h - a) / tau) / A) ^ p) * s) 0 1) := by
      rw [hker, jsClampTop_eq_clamp (mul_nonneg htarget hs)]
    exact ⟨hmain, by rw [paintChannels, hmain]; rfl⟩
  · intro hgt
    have hmain : ringKernel (normalizeAngle h) a A f p s = some 0 :=
      ringKernel_out f p s (by rw [hd]; exact hgt)
    refine ⟨hmain, ?_⟩
    rw [paintChannels, hmain]
    simp

/-- C1 counterexample: the paint call with tail arc π/2, tail floor 0.031,
the rings' falloff power 1.83 and intensity scale 1, evaluated at the
point at angle 0 with head angle π/2 + 5e-7 (inside the epsilon guard
band).  The claim asserts the point's intensity equals the real number
f + (1 - f) * (1 - deltaBack / A) ^ 1.83; the code instead computes
Math.pow of the negative base 1 - deltaBack / A with the non-integer
exponent 1.83, which is NaN, so no real intensity is produced at all
(the kernel yields none rather than some real). -/
theorem C1_counterexample :
    ringKernel (normalizeAngle (Real.pi / 2 + 5e-7)) 0 (Real.pi / 2)
      (31 / 1000) (183 / 100) 1 = none := by
  have hpi := Real.pi_gt_three
  have hx0 : (0 : ℝ) ≤ Real.pi / 2 + 5e-7 := by nlinarith
  have hx1 : Real.pi / 2 + 5e-7 < tau := by
    unfold tau
    nlinarith
  rw [normalizeAngle_of_mem hx0 hx1, ringKernel_def]
  have hdb : jsRem (Real.pi / 2 + 5e-7 - 0 + tau) tau = Real.pi / 2 + 5e-7 := by
    have he : Real.pi / 2 + 5e-7 - 0 + tau = Real.pi / 2 + 5e-7 + tau := by ring
    rw [he]
    exact (jsRem_eq_sub (by linarith [tau_pos]) (by unfold tau at hx1 ⊢; linarith)
      tau_pos).trans (by ring)
  rw [hdb, if_pos ⟨hx0, by unfold EPS; linarith⟩]
  have hhalf : (0 : ℝ) < Real.pi / 2 := by positivity
  have hneg : 1 - (Real.pi / 2 + 5e-7) / (Real.pi / 2) < 0 := by
    have h1 : 1 < (Real.pi / 2 + 5e-7) / (Real.pi / 2) :=
      (one_lt_div hhalf).mpr (by linarith)
    linarith
  rw [mathPow_of_neg_notInt hneg notInt_183]
  rfl

/-- Witness for the amended C1: head angle 0, point at angle π, tail arc
π (so deltaBack = π lies exactly at the end of the arc), floor 0, power 2,
scale 1, base color (1,0,0). -/
theorem C1_witness :
    ringKernel (normalizeAngle 0) Real.pi Real.pi 0 2 1
        = some (clamp
            ((0 + (1 - 0) * (1 - tau * Int.fract ((0 - Real.pi) / tau) / Real.pi)
              ^ (2 : ℝ)) * 1) 0 1)
      ∧ paintChannels ((1 : ℝ), (0 : ℝ), (0 : ℝ))
            (ringKernel (normalizeAngle 0) Real.pi Real.pi 0 2 1)
          = some
              ((1 : ℝ) * clamp
                ((0 + (1 - 0) * (1 - tau * Int.fract ((0 - Real.pi) / tau) / Real.pi)
                  ^ (2 : ℝ)) * 1) 0 1,
               (0 : ℝ) * clamp
                ((0 + (1 - 0) * (1 - tau * Int.fract ((0 - Real.pi) / tau) / Real.pi)
                  ^ (2 : ℝ)) * 1) 0 1,
               (0 : ℝ) * clamp
                ((0 + (1 - 0) * (1 - tau * Int.fract ((0 - Real.pi) / tau) / Real.pi)
                  ^ (2 : ℝ)) * 1) 0 1) := by
  have hpi := Real.pi_gt_three
  have hfr : Int.fract ((0 - Real.pi) / tau) = 1 / 2 := by
    have hpne : Real.pi ≠ 0 := Real.pi_ne_zero
    have h1 : (0 - Real.pi) / tau = -(1 / 2) := by
      unfold tau
      field_simp
      ring
    have hfl : ⌊(-(1 / 2) : ℝ)⌋ = -1 := by
      apply Int.floor_eq_iff.mpr
      constructor <;> norm_num
    have h2 : Int.fract (-(1 / 2) : ℝ) = -(1 / 2) - (⌊(-(1 / 2) : ℝ)⌋ : ℤ) := rfl
    rw [h1, h2, hfl]
    norm_num
  have hle : tau * Int.fract ((0 - Real.pi) / tau) ≤ Real.pi := by
    rw [hfr]
    unfold tau
    linarith
  exact (C1_paint_point_amended 0 Real.pi Real.pi 0 2 1 ((1 : ℝ), (0 : ℝ), (0 : ℝ))
    (by unfold tau; linarith) (by linarith) le_rfl zero_lt_one zero_le_one).1 hle

/-- C3: the invariant "no NaN or out-of-range channel value reaches the
color buffer" is violated by the code: on the hour ring (12 points;
angle 0 is a ring point), a paint call with presence 0 (tail arc
0.062π), intensity scale 1 and head angle 0.062π + 5e-7 puts the point at
angle 0 into the epsilon guard band, where Math.pow receives the negative
base 1 - deltaBack / tailArc with the non-integer exponent 1.83: the
intensity and all three written channel values are NaN (modelled none),
not reals in [0,1]. -/
theorem C3_nan_reaches_buffer :
    (0 : ℝ) ∈ ringAngles 12
  ∧ updateFillPoint hourRingConfig (31 / 500 * Real.pi + 5e-7) 1 0 0 = none
  ∧ updateFillChannels hourRingConfig (31 / 500 * Real.pi + 5e-7) 1 0 0 = none := by
  have hpi := Real.pi_gt_three
  have hmem : (0 : ℝ) ∈ ringAngles 12 := by
    unfold ringAngles
    exact List.mem_map.mpr ⟨0, List.mem_range.mpr (by norm_num), by norm_num⟩
  have harc : tailArcOf hourRingConfig (clamp 0 0 1) = 31 / 500 * Real.pi := by
    rw [clamp_eq_of_mem le_rfl zero_le_one, tailArcOf_def]
    have hmin : minTailLengthFraction hourRingConfig = 31 / 1000 := by
      unfold minTailLengthFraction hourRingConfig clamp
      norm_num
    rw [hmin]
    have hmax1 : max (31 / 1000 * tau) 1e-4 = 31 / 1000 * tau :=
      max_eq_left (by unfold tau; nlinarith)
    rw [hmax1]
    unfold lerp tau
    ring
  have hpower : falloffPower hourRingConfig = 183 / 100 := by
    unfold falloffPower hourRingConfig lerp clamp
    norm_num
  have hpoint : updateFillPoint hourRingConfig (31 / 500 * Real.pi + 5e-7) 1 0 0 = none := by
    rw [updateFillPoint_def, harc, hpower]
    have h0 : (0 : ℝ) ≤ 31 / 500 * Real.pi + 5e-7 := by positivity
    have h1 : 31 / 500 * Real.pi + 5e-7 < tau := by
      unfold tau
      nlinarith
    rw [normalizeAngle_of_mem h0 h1, ringKernel_def]
    have hdb : jsRem (31 / 500 * Real.pi + 5e-7 - 0 + tau) tau
        = 31 / 500 * Real.pi + 5e-7 := by
      have he : 31 / 500 * Real.pi + 5e-7 - 0 + tau
          = 31 / 500 * Real.pi + 5e-7 + tau := by ring
      rw [he]
      exact (jsRem_eq_sub (by linarith [tau_pos]) (by unfold tau at h1 ⊢; linarith)
        tau_pos).trans (by ring)
    rw [hdb, if_pos ⟨h0, by unfold EPS; linarith⟩]
    have harcpos : (0 : ℝ) < 31 / 500 * Real.pi := by positivity
    have hneg : 1 - (31 / 500 * Real.pi + 5e-7) / (31 / 500 * Real.pi) < 0 := by
      have hq : 1 < (31 / 500 * Real.pi + 5e-7) / (31 / 500 * Real.pi) :=
        (one_lt_div harcpos).mpr (by linarith)
      linarith
    rw [mathPow_of_neg_notInt hneg notInt_183]
    rfl
  refine ⟨hmem, hpoint, ?_⟩
  rw [updateFillChannels, hpoint]
  rfl

/-- C9: in any paint call, the point whose angle equals the normalized
head angle gets the capped intensity jsClampTop(max 0 s) (the maximum the
call can produce), and every other point that lies outside the epsilon
guard band (deltaBack ≤ A or deltaBack > A + EPS) receives an intensity
at most that. -/
theorem C9_head_point_max (hA a A f p s v : ℝ)
    (ha1 : a < tau) (hA0 : 0 < A) (hf0 : 0 ≤ f) (hf1 : f ≤ 1) (hp : 0 ≤ p)
    (hband : jsRem (normalizeAngle hA - a + tau) tau ≤ A
      ∨ A + EPS < jsRem (normalizeAngle hA - a + tau) tau)
    (hv : ringKernel (normalizeAngle hA) a A f p (max 0 s) = some v) :
    ringKernel (normalizeAngle hA) (normalizeAngle hA) A f p (max 0 s)
        = some (jsClampTop (max 0 s))
    ∧ v ≤ jsClampTop (max 0 s) := by
  have hS : (0 : ℝ) ≤ max 0 s := le_max_left _ _
  have hd_head : jsRem (normalizeAngle hA - normalizeAngle hA + tau) tau = 0 := by
    have he : normalizeAngle hA - normalizeAngle hA + tau = tau := by ring
    rw [he]
    exact (jsRem_eq_sub le_rfl (by linarith [tau_pos]) tau_pos).trans (by ring)
  have hhead : ringKernel (normalizeAngle hA) (normalizeAngle hA) A f p (max 0 s)
      = some (jsClampTop (max 0 s)) := by
    have hk := ringKernel_in f p (max 0 s) hA0 (le_of_eq hd_head.symm) (hd_head.le.trans hA0.le)
    rw [hd_head] at hk
    have harg : (f + (1 - f) * (1 - 0 / A) ^ p) * max 0 s = max 0 s := by
      rw [zero_div, sub_zero, Real.one_rpow]
      ring
    rw [hk, harg]
  refine ⟨hhead, ?_⟩
  have hd0 : 0 ≤ jsRem (normalizeAngle hA - a + tau) tau := by
    apply jsRem_nonneg _ tau_pos
    have := normalizeAngle_nonneg hA
    linarith
  rcases hband with hle | hgt
  · have hk2 := ringKernel_in f p (max 0 s) hA0 hd0 hle
    have hveq : v = jsClampTop
        ((f + (1 - f) * (1 - jsRem (normalizeAngle hA - a + tau) tau / A) ^ p)
          * max 0 s) :=
      Option.some.inj (hv.symm.trans hk2)
    have ht0 : 0 ≤ 1 - jsRem (normalizeAngle hA - a + tau) tau / A := by
      have hq := (div_le_one hA0).mpr hle
      linarith
    have ht1 : 1 - jsRem (normalizeAngle hA - a + tau) tau / A ≤ 1 := by
      have hq : 0 ≤ jsRem (normalizeAngle hA - a + tau) tau / A :=
        div_nonneg hd0 hA0.le
      linarith
    have hshaped : (1 - jsRem (normalizeAngle hA - a + tau) tau / A) ^ p ≤ 1 :=
      Real.rpow_le_one ht0 ht1 hp
    have htarget : f + (1 - f)
        * (1 - jsRem (normalizeAngle hA - a + tau) tau / A) ^ p ≤ 1 := by
      nlinarith
    have hmul : (f + (1 - f)
          * (1 - jsRem (normalizeAngle hA - a + tau) tau / A) ^ p) * max 0 s
        ≤ max 0 s := by
      nlinarith [Real.rpow_nonneg ht0 p]
    rw [hveq]
    exact jsClampTop_mono hmul
  · have hk2 := ringKernel_out f p (max 0 s) hgt
    have hveq : v = 0 := Option.some.inj (hv.symm.trans hk2)
    rw [hveq]
    exact jsClampTop_nonneg hS

/-- Witness for C9: head angle 0, the other point also at the head
(deltaBack 0, inside the arc), tail arc 1, floor 0, power 1, scale 1. -/
theorem C9_witness :
    ringKernel (normalizeAngle 0) (normalizeAngle 0) 1 0 1 (max 0 1)
        = some (jsClampTop (max 0 1))
    ∧ (1 : ℝ) ≤ jsClampTop (max 0 1) := by
  have hn0 : normalizeAngle 0 = 0 := normalizeAngle_of_mem le_rfl tau_pos
  have hd : jsRem (normalizeAngle 0 - 0 + tau) tau = 0 := by
    rw [hn0]
    have he : (0 : ℝ) - 0 + tau = tau := by ring
    rw [he]
    exact (jsRem_eq_sub le_rfl (by linarith [tau_pos]) tau_pos).trans (by ring)
  have hv : ringKernel (normalizeAngle 0) 0 1 0 1 (max 0 1) = some 1 := by
    rw [ringKernel_in 0 1 (max 0 1) one_pos (le_of_eq hd.symm) (hd.le.trans zero_le_one)]
    rw [hd]
    norm_num [Real.one_rpow, jsClampTop]
  exact C9_head_point_max 0 0 1 0 1 1 1 (by linarith [tau_pos]) one_pos le_rfl
    zero_le_one zero_le_one (Or.inl (hd.le.trans zero_le_one)) hv

/-- C8: every public setter is a total function of its real-valued input
and stores the input clamped to its documented range: setGlobalIntensity
and setDistanceFactor floor at 0, setAudioLevels clamps each band to
[0,1], setPresenceLevel (and nudgePresence through it) clamps to [0,1],
and setGatesConfig floors each fade duration to 0.001 and easePower to 0. -/
theorem C8_setters_total_and_clamped (v w l m h lvl delta : ℝ)
    (g : PresenceGatesConfig) (q : GatesPatch) :
    (ClockSystem.setGlobalIntensity v = max 0 v
      ∧ 0 ≤ ClockSystem.setGlobalIntensity v)
  ∧ (ClockSystem.setDistanceFactor w = max 0 w
      ∧ 0 ≤ ClockSystem.setDistanceFactor w)
  ∧ (ClockSystem.setAudioLevels l m h = (clamp l 0 1, clamp m 0 1, clamp h 0 1)
      ∧ 0 ≤ (ClockSystem.setAudioLevels l m h).1
      ∧ (ClockSystem.setAudioLevels l m h).1 ≤ 1
      ∧ 0 ≤ (ClockSystem.setAudioLevels l m h).2.1
      ∧ (ClockSystem.setAudioLevels l m h).2.1 ≤ 1
      ∧ 0 ≤ (ClockSystem.setAudioLevels l m h).2.2
      ∧ (ClockSystem.setAudioLevels l m h).2.2 ≤ 1)
  ∧ (PresenceSystem.setPresenceLevel lvl = clamp lvl 0 1
      ∧ 0 ≤ PresenceSystem.setPresenceLevel lvl
      ∧ PresenceSystem.setPresenceLevel lvl ≤ 1)
  ∧ PresenceSystem.nudgePresence lvl delta = clamp (lvl + delta) 0 1
  ∧ (0.001 ≤ (setGatesConfig g q).hourFadeSeconds
      ∧ 0.001 ≤ (setGatesConfig g q).minuteFadeSeconds
      ∧ 0.001 ≤ (setGatesConfig g q).secondFadeSeconds
      ∧ 0 ≤ (setGatesConfig g q).easePower) := by
  refine ⟨⟨rfl, le_max_left 0 v⟩, ⟨rfl, le_max_left 0 w⟩,
    ⟨rfl, ?_, ?_, ?_, ?_, ?_, ?_⟩, ⟨rfl, ?_, ?_⟩, rfl, ?_, ?_, ?_, ?_⟩
  · exact lo_le_clamp l 0 1
  · exact clamp_le_hi zero_le_one
  · exact lo_le_clamp m 0 1
  · exact clamp_le_hi zero_le_one
  · exact lo_le_clamp h 0 1
  · exact clamp_le_hi zero_le_one
  · exact lo_le_clamp lvl 0 1
  · exact clamp_le_hi zero_le_one
  · exact le_max_left _ _
  · exact le_max_left _ _
  · exact le_max_left _ _
  · exact le_max_left _ _

/-- C10: ClockSystem.setPresenceLevel clears all three per-ring presence
overrides regardless of the prior state, so the next update uses
clamp(v, 0, 1) as the effective presence for all three rings; and only
setRingPresenceLevels re-establishes overrides. -/
theorem C10_setPresenceLevel_clears_overrides (s : ClockPresenceState)
    (v h1 h2 h3 : ℝ) :
    (ClockSystem.setPresenceLevel s v).hourPresence = none
  ∧ (ClockSystem.setPresenceLevel s v).minutePresence = none
  ∧ (ClockSystem.setPresenceLevel s v).secondPresence = none
  ∧ updateEffectivePresences (ClockSystem.setPresenceLevel s v)
      = (clamp v 0 1, clamp v 0 1, clamp v 0 1)
  ∧ updateEffectivePresences
      (ClockSystem.setPresenceLevel (ClockSystem.setRingPresenceLevels s h1 h2 h3) v)
      = (clamp v 0 1, clamp v 0 1, clamp v 0 1)
  ∧ updateEffectivePresences (ClockSystem.setRingPresenceLevels s h1 h2 h3)
      = (clamp h1 0 1, clamp h2 0 1, clamp h3 0 1) := by
  refine ⟨rfl, rfl, rfl, rfl, rfl, rfl⟩

end TheStill

end
